import Mathlib

/-!
Verification development for the go_creation license-key and agent-commission
platform. The Go source (handlers over a relational store) is shallowly
embedded: each database table becomes a Lean list of records, each handler a
pure function from a database state (plus request inputs and a clock value)
to a new state and a result. Go `float64` is modelled as `ℚ`, Go `time.Time`
and `time.Duration` as `Int` nanoseconds, Go `int` as `Int`. Random code
generation is passed in as an oracle function. Transactions roll back on
error, so error paths return the original state.
-/

namespace GoCreation

/-- Error taxonomy of the spec (section 7); each Go early-return branch is
mapped to one constructor. -/
inductive AppError where
  | validationError
  | notFound
  | invalidState
  | mismatch
  | authorizationError
  | integrityViolation
  | conflict
  | transientStore
  deriving DecidableEq, Repr

/-- Nanoseconds per hour, as in Go `time.Hour`. -/
def nsPerHour : Int := 3600000000000

/-- Nanoseconds per minute, as in Go `time.Minute`. -/
def nsPerMinute : Int := 60000000000

/-- Nanoseconds per day. -/
def nsPerDay : Int := 24 * nsPerHour

/-- Embeds `models.Key` (salesperson_token.go): one license unit. -/
structure Key where
  id : Nat
  code : String
  keyCode : String
  typeId : Nat := 0
  typeName : String := ""
  hours : Int := 0
  price : ℚ := 0
  softwareId : Nat := 0
  softwareName : String := ""
  status : String := "unused"
  creatorId : Nat := 0
  creatorType : String := ""
  salespersonId : Nat := 0
  userId : Option Nat := none
  deviceInfo : String := ""
  usedAt : Option Int := none
  expiredAt : Option Int := none
  activatedAt : Option Int := none
  isBlacklisted : Bool := false
  deriving DecidableEq, Repr

/-- Embeds `models.KeyType`: pricing/validity template. -/
structure KeyType where
  id : Nat
  name : String := ""
  hours : Int := 0
  price : ℚ := 0
  status : String := "active"
  isActive : Bool := true
  deriving DecidableEq, Repr

/-- Embeds `models.Software`: product namespace. -/
structure Software where
  id : Nat
  name : String := ""
  status : String := "active"
  isActive : Bool := true
  deriving DecidableEq, Repr

/-- Embeds `models.SoftwareKeyType`: software to key-type binding row. -/
structure SoftwareKeyType where
  softwareId : Nat
  keyTypeId : Nat
  deriving DecidableEq, Repr

/-- Embeds `models.SalespersonProduct`: per-salesperson mint right and quota. -/
structure SalespersonProduct where
  id : Nat
  salespersonId : Nat
  softwareId : Nat
  keyTypeId : Nat
  commissionRate : ℚ := 0
  keyGenLimit : Int := 0
  keysGenerated : Int := 0
  isActive : Bool := true
  deriving DecidableEq, Repr

/-- Embeds `models.Salesperson`: a node in the agent tree. -/
structure Salesperson where
  id : Nat
  status : String := "active"
  commissionRate : ℚ := 0
  totalSales : ℚ := 0
  totalCommission : ℚ := 0
  parentId : Option Nat := none
  level : Int := 0
  childrenCount : Int := 0
  agentCode : String := ""
  parentCommissionRate : ℚ := 1 / 10
  deriving DecidableEq, Repr

/-- Embeds `models.SalespersonSale`: one sale event. -/
structure SalespersonSale where
  id : Nat
  salespersonId : Nat
  keyId : Nat := 0
  softwareId : Nat := 0
  keyTypeId : Nat := 0
  saleAmount : ℚ := 0
  commissionRate : ℚ := 0
  commission : ℚ := 0
  status : String := "pending"
  notes : String := ""
  deriving DecidableEq, Repr

/-- Embeds `models.SalespersonAgentCommission`: one commission payout row. -/
structure SalespersonAgentCommission where
  saleId : Nat
  salespersonId : Nat
  agentId : Nat
  agentLevel : Int
  originalAmount : ℚ
  commissionRate : ℚ
  commissionAmount : ℚ
  status : String
  deriving DecidableEq, Repr

/-- Embeds `models.SalespersonAgentInvitation`: a pending downline offer. -/
structure SalespersonAgentInvitation where
  id : Nat
  inviterId : Nat
  inviteeId : Option Nat := none
  inviteCode : String := ""
  email : String := ""
  phone : String := ""
  status : String := "pending"
  acceptedAt : Option Int := none
  expiredAt : Int := 0
  deriving DecidableEq, Repr

/-- The relational store: one list per table. -/
structure DB where
  keys : List Key := []
  keyTypes : List KeyType := []
  softwares : List Software := []
  softwareKeyTypes : List SoftwareKeyType := []
  salespersonProducts : List SalespersonProduct := []
  salespersons : List Salesperson := []
  sales : List SalespersonSale := []
  invitations : List SalespersonAgentInvitation := []
  agentCommissions : List SalespersonAgentCommission := []
  deriving DecidableEq, Repr

/-- Primary-key lookup on salespersons (`db.First(&salesperson, id)`). -/
def findSp (sps : List Salesperson) (i : Nat) : Option Salesperson :=
  sps.find? (fun s => s.id == i)

/-- Primary-key lookup on softwares. -/
def findSoftware (l : List Software) (i : Nat) : Option Software :=
  l.find? (fun s => s.id == i)

/-- Primary-key lookup on key types. -/
def findKeyType (l : List KeyType) (i : Nat) : Option KeyType :=
  l.find? (fun kt => kt.id == i)

/-- Embeds `Where("code = ? AND key_code = ?")` lookup. -/
def findKeyByCodes (l : List Key) (code keyCode : String) : Option Key :=
  l.find? (fun k => k.code == code && k.keyCode == keyCode)

/-- Primary-key lookup on keys, the Go side uses an `int` route parameter. -/
def findKeyById (l : List Key) (i : Int) : Option Key :=
  l.find? (fun k => (k.id : Int) == i)

/-- Embeds `Where("invite_code = ? AND status = ?", code, "pending")` lookup. -/
def findPendingInv (l : List SalespersonAgentInvitation) (code : String) :
    Option SalespersonAgentInvitation :=
  l.find? (fun i => i.inviteCode == code && i.status == "pending")

/-- Embeds `const MaxAgentLevel = 5` from the agent handler. -/
def MaxAgentLevel : Int := 5

/-- Embeds `handlers.ActivateKey`: looks up by (code, keyCode), requires status
unused, the key's software, and that software active; on success stamps
status=used, usedAt=activatedAt=now, expiredAt=now+hours, deviceInfo and
activator id. Errors leave the state unchanged (single-row transaction). -/
def ActivateKey (db : DB) (code keyCode : String) (softwareId : Nat)
    (deviceInfo : String) (activatorId : Nat) (now : Int) :
    DB × Except AppError Key :=
  if code = "" ∨ keyCode = "" then (db, .error .validationError)
  else if softwareId = 0 then (db, .error .validationError)
  else
    match findKeyByCodes db.keys code keyCode with
    | none => (db, .error .notFound)
    | some key =>
      if key.status ≠ "unused" then (db, .error .invalidState)
      else if key.softwareId ≠ softwareId then (db, .error .mismatch)
      else
        match findSoftware db.softwares softwareId with
        | none => (db, .error .notFound)
        | some software =>
          if software.status ≠ "active" ∨ software.isActive = false then
            (db, .error .mismatch)
          else
            let expiredAt := now + key.hours * nsPerHour
            let key' := { key with
              status := "used", usedAt := some now, activatedAt := some now,
              expiredAt := some expiredAt, deviceInfo := deviceInfo,
              userId := some activatorId }
            ({ db with
                keys := db.keys.map (fun k => if k.id == key.id then key' else k) },
             .ok key')

/-- Embeds `handlers.VoidKey`: fails when the key is already void, otherwise sets
status=void unconditionally (only the status column is written). -/
def VoidKey (db : DB) (id : Int) : DB × Except AppError Key :=
  if id ≤ 0 then (db, .error .validationError)
  else
    match findKeyById db.keys id with
    | none => (db, .error .notFound)
    | some key =>
      if key.status = "void" then (db, .error .invalidState)
      else
        let key' := { key with status := "void" }
        ({ db with
            keys := db.keys.map (fun k => if k.id == key.id then key' else k) },
         .ok key')

/-- Request body of `handlers.BatchCreateKeys`. -/
structure BatchCreateRequest where
  typeId : Nat
  softwareId : Nat
  count : Int
  creatorId : Nat := 0
  creatorType : String := ""
  salespersonId : Nat := 0
  deriving DecidableEq, Repr

/-- The effective creator type of a batch request: Go defaults an empty
`creator_type` to "admin". -/
def resolvedCreatorType (req : BatchCreateRequest) : String :=
  if req.creatorType = "" then "admin" else req.creatorType

/-- The salesperson product-right and quota gate of `BatchCreateKeys`. -/
def batchQuotaCheck (db : DB) (req : BatchCreateRequest)
    (creatorType : String) : Except AppError Unit :=
  if creatorType = "salesperson" then
    match db.salespersonProducts.find? (fun p =>
        p.salespersonId == req.salespersonId &&
        p.softwareId == req.softwareId &&
        p.keyTypeId == req.typeId && p.isActive) with
    | none => .error .authorizationError
    | some sp =>
      if sp.keyGenLimit > 0 ∧ sp.keysGenerated + req.count > sp.keyGenLimit then
        .error .authorizationError
      else .ok ()
  else .ok ()

/-- The keys built by `BatchCreateKeys`: each inherits the key type's
current name, hours and price, and starts unused. -/
def builtKeys (req : BatchCreateRequest) (creatorType : String)
    (keyType : KeyType) (software : Software)
    (genCode genKeyCode : Nat → String) : List Key :=
  (List.range req.count.toNat).map (fun i =>
    ({ id := 0, code := genCode i, keyCode := genKeyCode i,
       typeId := req.typeId, typeName := keyType.name,
       hours := keyType.hours, price := keyType.price,
       softwareId := req.softwareId, softwareName := software.name,
       status := "unused", creatorId := req.creatorId,
       creatorType := creatorType,
       salespersonId := req.salespersonId } : Key))

/-- The store after appending the freshly built keys. -/
def batchDb1 (db : DB) (req : BatchCreateRequest) (creatorType : String)
    (keyType : KeyType) (software : Software)
    (genCode genKeyCode : Nat → String) : DB :=
  { db with
    keys := db.keys ++
      builtKeys req creatorType keyType software genCode genKeyCode }

/-- The post-save phase of `BatchCreateKeys`: for a salesperson creator,
bump the quota counter (the second product lookup in Go omits the
`is_active` condition and silently skips when absent), create the sale
record at `count × price` with the product's commission rate, and add the
totals to the seller. -/
def batchFinalize (db : DB) (req : BatchCreateRequest) (creatorType : String)
    (keyType : KeyType) (software : Software)
    (genCode genKeyCode : Nat → String) : DB × Except AppError (List Key) :=
  if creatorType = "salesperson" then
    match (batchDb1 db req creatorType keyType software genCode
        genKeyCode).salespersonProducts.find? (fun p =>
        p.salespersonId == req.salespersonId &&
        p.softwareId == req.softwareId && p.keyTypeId == req.typeId) with
    | none => (batchDb1 db req creatorType keyType software genCode genKeyCode,
        .ok (builtKeys req creatorType keyType software genCode genKeyCode))
    | some sp =>
      let db1 := batchDb1 db req creatorType keyType software genCode genKeyCode
      let db2 := { db1 with salespersonProducts :=
        db1.salespersonProducts.map (fun (p : SalespersonProduct) =>
          if p.id == sp.id then
            { p with keysGenerated := p.keysGenerated + req.count }
          else p) }
      let totalAmount := (req.count : ℚ) * keyType.price
      let commission := totalAmount * sp.commissionRate
      let sale : SalespersonSale :=
        { id := 0, salespersonId := req.salespersonId, keyId := 0,
          softwareId := req.softwareId, keyTypeId := req.typeId,
          saleAmount := totalAmount, commissionRate := sp.commissionRate,
          commission := commission, status := "pending",
          notes := "通过API批量生成" }
      let db3 := { db2 with sales := db2.sales ++ [sale] }
      let db4 := { db3 with salespersons :=
        db3.salespersons.map (fun (s : Salesperson) =>
          if s.id == req.salespersonId then
            { s with totalSales := s.totalSales + totalAmount,
                     totalCommission := s.totalCommission + commission }
          else s) }
      (db4, .ok (builtKeys req creatorType keyType software genCode genKeyCode))
  else (batchDb1 db req creatorType keyType software genCode genKeyCode,
    .ok (builtKeys req creatorType keyType software genCode genKeyCode))

/-- Embeds `handlers.BatchCreateKeys`: validates count in [1,1000], creator type,
key-type/software activity and the software-to-key-type binding, plus the
salesperson product right and quota; then mints `count` keys inheriting the
key type's name/hours/price, and for salesperson creators updates the quota
counter, creates a sale record and bumps the seller's totals. The random
code generators are passed as oracles. -/
def BatchCreateKeys (db : DB) (req : BatchCreateRequest)
    (genCode genKeyCode : Nat → String) : DB × Except AppError (List Key) :=
  if req.count ≤ 0 ∨ req.count > 1000 then (db, .error .validationError)
  else if resolvedCreatorType req ≠ "admin" ∧
      resolvedCreatorType req ≠ "salesperson" then
    (db, .error .validationError)
  else if resolvedCreatorType req = "salesperson" ∧ req.salespersonId = 0 then
    (db, .error .validationError)
  else
    match findKeyType db.keyTypes req.typeId with
    | none => (db, .error .notFound)
    | some keyType =>
      if keyType.status ≠ "active" ∨ keyType.isActive = false then
        (db, .error .invalidState)
      else
        match findSoftware db.softwares req.softwareId with
        | none => (db, .error .notFound)
        | some software =>
          if software.status ≠ "active" ∨ software.isActive = false then
            (db, .error .invalidState)
          else
            match db.softwareKeyTypes.find?
                (fun b => b.softwareId == req.softwareId &&
                  b.keyTypeId == req.typeId) with
            | none => (db, .error .notFound)
            | some _ =>
              match batchQuotaCheck db req (resolvedCreatorType req) with
              | .error e => (db, .error e)
              | .ok _ => batchFinalize db req (resolvedCreatorType req)
                  keyType software genCode genKeyCode

/-- Embeds `handlers.isCircularReference`: checks whether `potentialParentId` is
`childId` itself or a direct or indirect descendant of `childId`, by
recursively traversing `childId`'s descendants through the `parent_id`
column. The Go recursion has no explicit bound (it terminates because the
stored relation is a forest); the embedding adds a fuel parameter, consumed
once per recursion level, and callers pass a fuel that dominates the
descendant depth of any forest over the table. -/
def isCircularReference (sps : List Salesperson) (fuel : Nat)
    (potentialParentId childId : Nat) : Bool :=
  if potentialParentId == childId then true
  else
    match fuel with
    | 0 => false
    | f + 1 =>
      (sps.filter (fun s => s.parentId == some childId)).any
        (fun child => child.id == potentialParentId ||
          isCircularReference sps f potentialParentId child.id)

/-- Result of `handlers.AcceptAgentInvitation`: the handler's HTTP response
(success or error) together with the store state after the call — the
expired-invitation branch writes a status update even though it fails. -/
inductive AcceptOutcome where
  | ok (db : DB)
  | err (e : AppError) (db : DB)
  deriving DecidableEq, Repr

/-- Embeds `handlers.AcceptAgentInvitation`: resolves a pending invitation by code,
expires it when past its deadline, and otherwise checks (in source order)
that the inviter is below `MaxAgentLevel`, that the accepter has no parent
yet, that attaching would not create a circular reference, and that the new
level stays within `MaxAgentLevel`; on success it transactionally re-parents
the accepter at `inviter.level + 1`, increments the inviter's
`children_count`, and marks the invitation accepted. -/
def AcceptAgentInvitation (db : DB) (inviteCode : String) (salespersonId : Nat)
    (now : Int) : AcceptOutcome :=
  if inviteCode = "" then .err .validationError db
  else
    match findPendingInv db.invitations inviteCode with
    | none => .err .notFound db
    | some invitation =>
      if invitation.expiredAt < now then
        let invs := db.invitations.map (fun i =>
          if i.id == invitation.id then { i with status := "expired" } else i)
        AcceptOutcome.err .invalidState { db with invitations := invs }
      else
        match findSp db.salespersons salespersonId with
        | none => .err .notFound db
        | some salesperson =>
          match findSp db.salespersons invitation.inviterId with
          | none => .err .notFound db
          | some inviter =>
            if MaxAgentLevel ≤ inviter.level then .err .integrityViolation db
            else if salesperson.parentId ≠ none then .err .invalidState db
            else if isCircularReference db.salespersons db.salespersons.length
                invitation.inviterId salespersonId then
              .err .integrityViolation db
            else if MaxAgentLevel < inviter.level + 1 then
              .err .integrityViolation db
            else
              let salesperson' := { salesperson with
                parentId := some invitation.inviterId, level := inviter.level + 1 }
              let sps1 := db.salespersons.map (fun s =>
                if s.id == salesperson.id then salesperson' else s)
              let sps2 := sps1.map (fun s =>
                if s.id == inviter.id then
                  { s with childrenCount := s.childrenCount + 1 }
                else s)
              let invitation' := { invitation with
                status := "accepted", inviteeId := some salesperson.id,
                acceptedAt := some now }
              let invs := db.invitations.map (fun i =>
                if i.id == invitation.id then invitation' else i)
              .ok { db with salespersons := sps2, invitations := invs }

/-- Character class `[a-zA-Z0-9._%+-]` of the email regex's local part. -/
def emailLocalChar (c : Char) : Bool :=
  c.isAlpha || c.isDigit || c == '.' || c == '_' || c == '%' || c == '+' || c == '-'

/-- Character class `[a-zA-Z0-9.-]` of the email regex's domain part. -/
def emailDomainChar (c : Char) : Bool :=
  c.isAlpha || c.isDigit || c == '.' || c == '-'

/-- The anchored Go regex `^[a-zA-Z0-9._%+-]+@[a-zA-Z0-9.-]+\.[a-zA-Z]{2,}$`.
None of the classes contain `@`, so a match splits at the unique `@`; the
final `[a-zA-Z]{2,}$` component contains no dot, so its separating dot is
the last dot of the domain. The embedding decides the match through that
decomposition. -/
def emailFormatOk (s : String) : Bool :=
  let cs := s.toList
  let localPart := cs.takeWhile (fun c => c != '@')
  match cs.dropWhile (fun c => c != '@') with
  | [] => false
  | _ :: domain =>
    !domain.any (fun c => c == '@') &&
    !localPart.isEmpty && localPart.all emailLocalChar &&
    (let tld := (domain.reverse.takeWhile (fun c => c != '.')).reverse
     match domain.reverse.dropWhile (fun c => c != '.') with
     | [] => false
     | _ :: baseRev =>
       let base := baseRev.reverse
       !base.isEmpty && base.all emailDomainChar &&
       decide (2 ≤ tld.length) && tld.all Char.isAlpha)

/-- The anchored Go regex `^[0-9]{5,15}$`. -/
def phoneFormatOk (s : String) : Bool :=
  s.toList.all Char.isDigit && decide (5 ≤ s.length) && decide (s.length ≤ 15)

/-- The duplicate-invitation predicate actually issued by
`handlers.CreateAgentInvitation`. GORM joins chained `Where` conditions with
AND and appends the `Or` condition at the same level, so with both contacts
present the SQL is `(status = 'pending' AND email = ?) OR phone = ?`, and
with only a phone it is `status = 'pending' OR phone = ?`. -/
def invitationDupQuery (email phone : String)
    (inv : SalespersonAgentInvitation) : Bool :=
  if email ≠ "" then
    if phone ≠ "" then
      (inv.status == "pending" && inv.email == email) || inv.phone == phone
    else inv.status == "pending" && inv.email == email
  else
    if phone ≠ "" then inv.status == "pending" || inv.phone == phone
    else inv.status == "pending"

/-- The duplicate test the spec describes: a pending invitation for the same
contact (same email or same phone). Stated from the spec's words, for
comparison with `invitationDupQuery`. -/
def pendingSameContact (email phone : String)
    (inv : SalespersonAgentInvitation) : Bool :=
  inv.status == "pending" &&
    ((email != "" && inv.email == email) || (phone != "" && inv.phone == phone))

/-- Embeds `handlers.CreateAgentInvitation`: requires at least one contact with
valid format, rejects when the duplicate query matches an existing
invitation, and otherwise persists a pending invitation expiring 7 days
after creation. The generated invite code is passed as an oracle. -/
def CreateAgentInvitation (db : DB) (salespersonId : Nat)
    (email phone inviteCode : String) (now : Int) :
    DB × Except AppError SalespersonAgentInvitation :=
  if email = "" ∧ phone = "" then (db, .error .validationError)
  else if email ≠ "" ∧ emailFormatOk email = false then (db, .error .validationError)
  else if phone ≠ "" ∧ phoneFormatOk phone = false then (db, .error .validationError)
  else
    match findSp db.salespersons salespersonId with
    | none => (db, .error .notFound)
    | some _ =>
      match db.invitations.find? (invitationDupQuery email phone) with
      | some _ => (db, .error .conflict)
      | none =>
        let inv : SalespersonAgentInvitation :=
          { id := 0, inviterId := salespersonId, inviteeId := none,
            inviteCode := inviteCode, email := email, phone := phone,
            status := "pending", acceptedAt := none,
            expiredAt := now + 7 * nsPerDay }
        ({ db with invitations := db.invitations ++ [inv] }, .ok inv)

/-- The commission walk of `handlers.ProcessAgentCommission`: climbs from the
seller through `parent_id` links for at most `MaxAgentLevel` hops, reading
each ancestor inside the transaction, applying the direct rate when the
walk's current level is exactly one above the ancestor and the halved rate
`parentCommissionRate / 2^(currentLevel - level - 1)` otherwise, stopping as
soon as the amount falls below 0.01, and otherwise appending one pending
commission row and crediting the ancestor's `total_commission`. The fuel is
`maxLevels - processedLevels`. -/
def cascadeLoop (saleId : Nat) (saleAmount : ℚ) :
    Nat → Nat → Option Nat → Int → List Salesperson →
    List SalespersonAgentCommission →
    Except AppError (List Salesperson × List SalespersonAgentCommission)
  | 0, _, _, _, sps, rows => .ok (sps, rows)
  | _ + 1, _, none, _, sps, rows => .ok (sps, rows)
  | fuel + 1, curId, some pid, curLevel, sps, rows =>
    match findSp sps pid with
    | none => .error .notFound
    | some parent =>
      let commissionRate :=
        if curLevel - 1 = parent.level then parent.parentCommissionRate
        else parent.parentCommissionRate / (2 : ℚ) ^ (curLevel - parent.level - 1)
      let commissionAmount := saleAmount * commissionRate
      if commissionAmount < 1 / 100 then .ok (sps, rows)
      else
        let row : SalespersonAgentCommission :=
          { saleId := saleId, salespersonId := curId, agentId := parent.id,
            agentLevel := parent.level, originalAmount := saleAmount,
            commissionRate := commissionRate,
            commissionAmount := commissionAmount, status := "pending" }
        let sps' := sps.map (fun s =>
          if s.id == parent.id then
            { s with totalCommission := s.totalCommission + commissionAmount }
          else s)
        cascadeLoop saleId saleAmount fuel parent.id parent.parentId
          parent.level sps' (rows ++ [row])

/-- Embeds `handlers.ProcessAgentCommission`: a successful no-op when the seller has
no parent, otherwise runs the cascade in one transaction; any failure rolls
back every commission write (the state is only replaced on success). -/
def ProcessAgentCommission (db : DB) (sale : SalespersonSale) :
    Except AppError DB :=
  match findSp db.salespersons sale.salespersonId with
  | none => .error .notFound
  | some salesperson =>
    match salesperson.parentId with
    | none => .ok db
    | some _ =>
      match cascadeLoop sale.id sale.saleAmount MaxAgentLevel.toNat
          sale.salespersonId salesperson.parentId salesperson.level
          db.salespersons [] with
      | .error e => .error e
      | .ok (sps, rows) =>
        .ok { db with salespersons := sps,
                      agentCommissions := db.agentCommissions ++ rows }

/-- Embeds `utils.LoginAttemptInfo`: per-username failure record. The Go zero value
of `time.Time` becomes instant 0. -/
structure LoginAttemptInfo where
  count : Int
  lastTry : Int
  lockUntil : Int := 0
  deriving DecidableEq, Repr

/-- Embeds `utils.LoginLimiter`: the mutex-guarded map becomes an association list;
durations are nanoseconds. -/
structure LoginLimiter where
  attempts : List (String × LoginAttemptInfo) := []
  maxAttempts : Int
  lockDuration : Int
  deriving DecidableEq, Repr

/-- Store an attempt record under a username (map insert-or-replace). -/
def setAttempt (l : LoginLimiter) (u : String) (a : LoginAttemptInfo) :
    LoginLimiter :=
  if l.attempts.any (fun p => p.1 == u) then
    { l with attempts := l.attempts.map (fun p => if p.1 == u then (u, a) else p) }
  else
    { l with attempts := l.attempts ++ [(u, a)] }

/-- Lookup of a username's attempt record. -/
def findAttempt (l : LoginLimiter) (u : String) : Option LoginAttemptInfo :=
  (l.attempts.find? (fun p => p.1 == u)).map (fun p => p.2)

/-- Embeds `LoginLimiter.RecordFailedLogin`: increments the consecutive-failure
count (creating the record on first failure), and when the count reaches
`maxAttempts` sets `lockUntil = now + lockDuration` and reports locked with
the lock duration in whole minutes; otherwise reports not locked. -/
def RecordFailedLogin (l : LoginLimiter) (username : String) (now : Int) :
    LoginLimiter × Bool × Int :=
  let attempt : LoginAttemptInfo :=
    match findAttempt l username with
    | none => { count := 0, lastTry := now, lockUntil := 0 }
    | some a => a
  let attempt1 := { attempt with count := attempt.count + 1, lastTry := now }
  if l.maxAttempts ≤ attempt1.count then
    let attempt2 := { attempt1 with lockUntil := now + l.lockDuration }
    (setAttempt l username attempt2, true, l.lockDuration / nsPerMinute)
  else
    (setAttempt l username attempt1, false, 0)

/-- Embeds `LoginLimiter.IsLocked`: a pure read — locked exactly when
`now < lockUntil` for that username, false for an unknown username. -/
def IsLocked (l : LoginLimiter) (username : String) (now : Int) : Bool × Int :=
  match findAttempt l username with
  | none => (false, 0)
  | some a =>
    if now < a.lockUntil then (true, (a.lockUntil - now) / nsPerMinute + 1)
    else (false, 0)

/-- Holds when `d` is a strict descendant of `a` in the stored parent relation, at the
given traversal depth: a witness chain of `parent_id` links of that length. -/
inductive DescendantAtDepth (sps : List Salesperson) : Nat → Nat → Nat → Prop
  | direct (a : Nat) (s : Salesperson) (hmem : s ∈ sps)
      (hpar : s.parentId = some a) : DescendantAtDepth sps a s.id 1
  | step (a d : Nat) (n : Nat) (s : Salesperson) (hmem : s ∈ sps)
      (hpar : s.parentId = some a) (hrec : DescendantAtDepth sps s.id d n) :
      DescendantAtDepth sps a d (n + 1)

/-- Decidable form of the forest invariant used by the commission claims:
every stored node's parent, when present in the table, has a strictly
smaller level. -/
def parentLevelLtB (sps : List Salesperson) : Bool :=
  sps.all (fun x =>
    match x.parentId with
    | none => true
    | some pid =>
      match findSp sps pid with
      | none => true
      | some p => decide (p.level < x.level))

/-- Decidable uniqueness of salesperson ids. -/
def spIdsNodupB (sps : List Salesperson) : Bool :=
  (sps.map Salesperson.id).Nodup

/-- Decidable uniqueness of key ids. -/
def keyIdsNodupB (ks : List Key) : Bool :=
  (ks.map Key.id).Nodup

/-- Decidable uniqueness of invitation ids. -/
def invIdsNodupB (l : List SalespersonAgentInvitation) : Bool :=
  (l.map SalespersonAgentInvitation.id).Nodup

/-- Total commission amount a batch of cascade rows credits to agent `x`. -/
def agentAmount (rows : List SalespersonAgentCommission) (x : Nat) : ℚ :=
  ((rows.filter (fun r => r.agentId == x)).map
    SalespersonAgentCommission.commissionAmount).sum

/-- The forest invariant, in propositional form. -/
def parentLevelLtP (sps : List Salesperson) : Prop :=
  ∀ x ∈ sps, ∀ pid, x.parentId = some pid →
    ∀ p, findSp sps pid = some p → p.level < x.level

/-- The commission rate the spec prescribes for ancestor `A` when the walk's
current synthetic level is `curLevel`: `A.parentCommissionRate` verbatim for
the direct upline (`curLevel = A.level + 1`), halved once per level of
indirection otherwise. Stated from the spec's words, to be compared with the
rate selection inside `cascadeLoop`. -/
def specRate (A : Salesperson) (curLevel : Int) : ℚ :=
  if curLevel = A.level + 1 then A.parentCommissionRate
  else A.parentCommissionRate / (2 : ℚ) ^ (curLevel - A.level - 1)

theorem find?_map_congr {α : Type} (p : α → Bool) (f : α → α)
    (hp : ∀ a, p (f a) = p a) :
    ∀ l : List α, (l.map f).find? p = (l.find? p).map f := by
  intro l
  induction l with
  | nil => rfl
  | cons a t ih =>
    simp only [List.map_cons, List.find?]
    rw [hp a]
    cases hpa : p a <;> simp [ih]

theorem find?_map_fix {α : Type} (p : α → Bool) (f : α → α)
    (hp : ∀ a, p (f a) = p a) (hfix : ∀ a, p a = true → f a = a) (l : List α) :
    (l.map f).find? p = l.find? p := by
  rw [find?_map_congr p f hp]
  cases hl : l.find? p with
  | none => rfl
  | some x => simp [hfix x (List.find?_some hl)]

theorem find?_map_update {α : Type} (key : α → Nat) (p : α → Bool) :
    ∀ (l : List α), (l.map key).Nodup → ∀ (k k' : α), l.find? p = some k →
      key k' = key k → p k' = true →
      (l.map (fun a => if key a == key k then k' else a)).find? p = some k' := by
  intro l
  induction l with
  | nil => intro _ k k' h _ _; simp [List.find?] at h
  | cons a t ih =>
    intro hn k k' hfind hkey hp
    simp only [List.map_cons, List.Nodup, List.pairwise_cons] at hn
    simp only [List.find?] at hfind
    cases hpa : p a with
    | true =>
      rw [hpa] at hfind
      have hak : a = k := by simpa using hfind
      subst hak
      simp [List.find?, hp]
    | false =>
      rw [hpa] at hfind
      have hkmem : k ∈ t := List.mem_of_find?_eq_some hfind
      have hne : key a ≠ key k := hn.1 (key k) (List.mem_map_of_mem key hkmem)
      simp only [List.map_cons]
      rw [if_neg (by simpa using hne)]
      simp only [List.find?, hpa]
      exact ih hn.2 k k' hfind hkey hp

theorem find?_key_of_mem_nodup {α : Type} (key : α → Nat) :
    ∀ (l : List α), (l.map key).Nodup → ∀ a ∈ l,
      l.find? (fun x => key x == key a) = some a := by
  intro l
  induction l with
  | nil => intro _ a ha; cases ha
  | cons h t ih =>
    intro hn a ha
    simp only [List.map_cons, List.Nodup, List.pairwise_cons] at hn
    rcases List.mem_cons.mp ha with rfl | hat
    · simp [List.find?]
    · have hne : key h ≠ key a := hn.1 (key a) (List.mem_map_of_mem key hat)
      cases hb : (key h == key a) with
      | true => exact absurd (by simpa using hb) hne
      | false =>
        simp only [List.find?, hb]
        exact ih hn.2 a hat

theorem find?_map_replace {α : Type} (q : α → Bool) (c : α) (hc : q c = true) :
    ∀ l : List α, l.any q = true →
      (l.map (fun x => if q x then c else x)).find? q = some c := by
  intro l
  induction l with
  | nil => simp
  | cons x t ih =>
    intro h
    cases hx : q x with
    | true => simp [List.find?, hx, hc]
    | false =>
      simp only [List.any_cons, hx, Bool.false_or] at h
      simp [List.find?, hx, ih h]

theorem find?_append_of_any_false {α : Type} (q : α → Bool) :
    ∀ (l1 l2 : List α), l1.any q = false → (l1 ++ l2).find? q = l2.find? q := by
  intro l1 l2
  induction l1 with
  | nil => simp
  | cons x t ih =>
    intro h
    simp only [List.any_cons, Bool.or_eq_false_iff] at h
    simp [List.find?, h.1, ih h.2]

theorem isCircularReference_succ (sps : List Salesperson) (f pid cid : Nat) :
    isCircularReference sps (f + 1) pid cid =
      (if pid == cid then true else
        (sps.filter (fun s => s.parentId == some cid)).any
          (fun c => c.id == pid || isCircularReference sps f pid c.id)) := by
  rfl

theorem isCircularReference_self (sps : List Salesperson) (fuel x : Nat) :
    isCircularReference sps fuel x x = true := by
  unfold isCircularReference
  simp

theorem isCircularReference_of_descendant (sps : List Salesperson)
    {a d n : Nat} (h : DescendantAtDepth sps a d n) :
    ∀ {fuel : Nat}, n ≤ fuel → isCircularReference sps fuel d a = true := by
  induction h with
  | direct a s hmem hpar =>
    intro fuel hf
    cases fuel with
    | zero => omega
    | succ f =>
      rw [isCircularReference_succ]
      cases hda : (s.id == a) with
      | true => simp
      | false =>
        rw [if_neg (by simp [hda]), List.any_eq_true]
        exact ⟨s, List.mem_filter.mpr ⟨hmem, by simp [hpar]⟩, by simp⟩
  | step a d n s hmem hpar hrec ih =>
    intro fuel hf
    cases fuel with
    | zero => omega
    | succ f =>
      rw [isCircularReference_succ]
      cases hda : (d == a) with
      | true => simp
      | false =>
        rw [if_neg (by simp [hda]), List.any_eq_true]
        refine ⟨s, List.mem_filter.mpr ⟨hmem, by simp [hpar]⟩, ?_⟩
        have hrecf := @ih f (by omega)
        simp [hrecf]

theorem findAttempt_setAttempt (l : LoginLimiter) (u : String)
    (a : LoginAttemptInfo) : findAttempt (setAttempt l u a) u = some a := by
  unfold findAttempt setAttempt
  cases hany : l.attempts.any (fun p => p.1 == u) with
  | true =>
    rw [if_pos rfl]
    simp only []
    rw [find?_map_replace (fun p => p.1 == u) (u, a) (by simp) l.attempts hany]
    rfl
  | false =>
    rw [if_neg (by simp)]
    simp only []
    rw [find?_append_of_any_false (fun p => p.1 == u) l.attempts [(u, a)] hany]
    simp [List.find?]

theorem parentLevelLtP_of_B (sps : List Salesperson)
    (h : parentLevelLtB sps = true) : parentLevelLtP sps := by
  intro x hx pid hpid p hp
  have hx' := (List.all_eq_true.mp h) x hx
  simp only [hpid, hp] at hx'
  simpa using hx'

theorem findSp_mem {sps : List Salesperson} {i : Nat} {s : Salesperson}
    (h : findSp sps i = some s) : s ∈ sps :=
  List.mem_of_find?_eq_some h

theorem findSp_id {sps : List Salesperson} {i : Nat} {s : Salesperson}
    (h : findSp sps i = some s) : s.id = i := by
  simpa using List.find?_some h

theorem salesperson_add_zero (e : Salesperson) :
    { e with totalCommission := e.totalCommission + 0 } = e := by
  cases e
  simp

theorem findSp_update (sps : List Salesperson) (aid : Nat) (amt : ℚ) (x : Nat) :
    findSp (sps.map (fun s => if s.id == aid then
        { s with totalCommission := s.totalCommission + amt } else s)) x =
      (findSp sps x).map (fun s => if s.id == aid then
        { s with totalCommission := s.totalCommission + amt } else s) := by
  unfold findSp
  exact find?_map_congr _ _ (fun a => by split <;> rfl) sps

theorem parentLevelLtP_update (sps : List Salesperson) (aid : Nat) (amt : ℚ)
    (h : parentLevelLtP sps) :
    parentLevelLtP (sps.map (fun s => if s.id == aid then
      { s with totalCommission := s.totalCommission + amt } else s)) := by
  intro x hx pid hpid p hp
  rcases List.mem_map.mp hx with ⟨x0, hx0, rfl⟩
  rw [findSp_update] at hp
  rcases Option.map_eq_some'.mp hp with ⟨p0, hp0, rfl⟩
  have hpar0 : x0.parentId = some pid := by
    revert hpid
    split <;> exact id
  have hlvl0 := h x0 hx0 pid hpar0 p0 hp0
  revert hlvl0
  split <;> (split <;> exact id)

theorem agentAmount_nil (x : Nat) : agentAmount [] x = 0 := rfl

theorem agentAmount_cons (r : SalespersonAgentCommission)
    (rows : List SalespersonAgentCommission) (x : Nat) :
    agentAmount (r :: rows) x =
      (if r.agentId == x then r.commissionAmount else 0) + agentAmount rows x := by
  unfold agentAmount
  rw [List.filter_cons]
  split <;> simp

theorem cascadeLoop_ok_spec (saleId : Nat) (M : ℚ) :
    ∀ (fuel : Nat) (curId : Nat) (curPid : Option Nat) (curLevel : Int)
      (sps sps' : List Salesperson)
      (rows rows' : List SalespersonAgentCommission),
      parentLevelLtP sps →
      (∀ pid, curPid = some pid → ∀ p, findSp sps pid = some p → p.level < curLevel) →
      cascadeLoop saleId M fuel curId curPid curLevel sps rows = .ok (sps', rows') →
      ∃ new, rows' = rows ++ new ∧ new.length ≤ fuel ∧
        (∀ r ∈ new, r.status = "pending" ∧ r.saleId = saleId ∧
          r.originalAmount = M ∧ r.agentLevel < curLevel ∧
          ∃ e, findSp sps r.agentId = some e ∧ e.level = r.agentLevel) ∧
        new.Pairwise (fun a b => b.agentLevel < a.agentLevel) ∧
        (∀ x, findSp sps' x = (findSp sps x).map (fun e =>
          { e with totalCommission := e.totalCommission + agentAmount new x })) := by
  intro fuel
  induction fuel with
  | zero =>
    intro curId curPid curLevel sps sps' rows rows' _ _ hrun
    simp only [cascadeLoop, Except.ok.injEq, Prod.mk.injEq] at hrun
    obtain ⟨rfl, rfl⟩ := hrun
    refine ⟨[], by simp, by simp, by simp, by simp, ?_⟩
    intro x
    cases hfx : findSp sps x with
    | none => rfl
    | some e => simp [agentAmount_nil, salesperson_add_zero e]
  | succ f ih =>
    intro curId curPid curLevel sps sps' rows rows' hinv hcur hrun
    cases curPid with
    | none =>
      simp only [cascadeLoop, Except.ok.injEq, Prod.mk.injEq] at hrun
      obtain ⟨rfl, rfl⟩ := hrun
      refine ⟨[], by simp, by simp, by simp, by simp, ?_⟩
      intro x
      cases hfx : findSp sps x with
      | none => rfl
      | some e => simp [agentAmount_nil, salesperson_add_zero e]
    | some pid =>
      rw [show cascadeLoop saleId M (f + 1) curId (some pid) curLevel sps rows =
        (match findSp sps pid with
         | none => .error .notFound
         | some parent =>
           let commissionRate :=
             if curLevel - 1 = parent.level then parent.parentCommissionRate
             else parent.parentCommissionRate /
               (2 : ℚ) ^ (curLevel - parent.level - 1)
           let commissionAmount := M * commissionRate
           if commissionAmount < 1 / 100 then .ok (sps, rows)
           else
             let row : SalespersonAgentCommission :=
               { saleId := saleId, salespersonId := curId, agentId := parent.id,
                 agentLevel := parent.level, originalAmount := M,
                 commissionRate := commissionRate,
                 commissionAmount := commissionAmount, status := "pending" }
             let sps1 := sps.map (fun s =>
               if s.id == parent.id then
                 { s with totalCommission := s.totalCommission + commissionAmount }
               else s)
             cascadeLoop saleId M f parent.id parent.parentId
               parent.level sps1 (rows ++ [row])) from rfl] at hrun
      cases hpar : findSp sps pid with
      | none =>
        rw [hpar] at hrun
        simp at hrun
      | some parent =>
        rw [hpar] at hrun
        simp only [] at hrun
        have hplevel : parent.level < curLevel := hcur pid rfl parent hpar
        have hparid : parent.id = pid := findSp_id hpar
        have hparmem : parent ∈ sps := findSp_mem hpar
        set rate : ℚ :=
          (if curLevel - 1 = parent.level then parent.parentCommissionRate
           else parent.parentCommissionRate /
             (2 : ℚ) ^ (curLevel - parent.level - 1)) with hrate
        by_cases hamt : M * rate < 1 / 100
        · rw [if_pos hamt] at hrun
          simp only [Except.ok.injEq, Prod.mk.injEq] at hrun
          obtain ⟨rfl, rfl⟩ := hrun
          refine ⟨[], by simp, by simp, by simp, by simp, ?_⟩
          intro x
          cases hfx : findSp sps x with
          | none => rfl
          | some e => simp [agentAmount_nil, salesperson_add_zero e]
        · rw [if_neg hamt] at hrun
          have hinv1 : parentLevelLtP (sps.map (fun s =>
              if s.id == parent.id then
                { s with totalCommission := s.totalCommission + M * rate }
              else s)) :=
            parentLevelLtP_update sps parent.id (M * rate) hinv
          have hcur1 : ∀ pid', parent.parentId = some pid' →
              ∀ p', findSp (sps.map (fun s =>
                if s.id == parent.id then
                  { s with totalCommission := s.totalCommission + M * rate }
                else s)) pid' = some p' → p'.level < parent.level := by
            intro pid' hp' p' hfind'
            rw [findSp_update] at hfind'
            rcases Option.map_eq_some'.mp hfind' with ⟨p0, hp0, rfl⟩
            have h0 := hinv parent hparmem pid' hp' p0 hp0
            revert h0
            split <;> exact id
          obtain ⟨new1, hrows1, hlen1, hprops1, hpw1, hfind1⟩ :=
            ih parent.id parent.parentId parent.level _ sps' _ rows' hinv1 hcur1 hrun
          refine ⟨({ saleId := saleId, salespersonId := curId,
                     agentId := parent.id, agentLevel := parent.level,
                     originalAmount := M, commissionRate := rate,
                     commissionAmount := M * rate,
                     status := "pending" } : SalespersonAgentCommission) :: new1,
            ?_, ?_, ?_, ?_, ?_⟩
          · rw [hrows1]
            simp
          · simp only [List.length_cons]
            omega
          · intro r hr
            rcases List.mem_cons.mp hr with rfl | hr1
            · refine ⟨rfl, rfl, rfl, hplevel, parent, ?_, rfl⟩
              rw [hparid]
              exact hpar
            · obtain ⟨h1, h2, h3, h4, e1, he1, he2⟩ := hprops1 r hr1
              refine ⟨h1, h2, h3, lt_trans h4 hplevel, ?_⟩
              rw [findSp_update] at he1
              rcases Option.map_eq_some'.mp he1 with ⟨e0, he0, rfl⟩
              refine ⟨e0, he0, ?_⟩
              rw [← he2]
              split <;> rfl
          · refine List.pairwise_cons.mpr ⟨?_, hpw1⟩
            intro b hb
            exact (hprops1 b hb).2.2.2.1
          · intro x
            rw [hfind1 x, findSp_update]
            cases hfx : findSp sps x with
            | none => rfl
            | some e =>
              have hex : e.id = x := findSp_id hfx
              simp only [Option.map_some']
              rw [agentAmount_cons]
              by_cases hxp : x = parent.id
              · rw [if_pos (show (e.id == parent.id) = true by simp [hex, hxp]),
                  if_pos (by simp [hxp])]
                cases e
                simp only []
                congr 1
                simp [add_assoc]
              · rw [if_neg (show ¬ (e.id == parent.id) = true by simp [hex]; exact hxp),
                  if_neg (by simp; exact fun h => hxp h.symm)]
                cases e
                simp only []
                congr 1
                simp

theorem cascade_agentIds_nodup (sps : List Salesperson)
    (new : List SalespersonAgentCommission)
    (hpw : new.Pairwise (fun a b => b.agentLevel < a.agentLevel))
    (hal : ∀ r ∈ new, ∃ e, findSp sps r.agentId = some e ∧
      e.level = r.agentLevel) :
    (new.map (fun r => r.agentId)).Nodup := by
  unfold List.Nodup
  rw [List.pairwise_map]
  refine List.Pairwise.imp_of_mem ?_ hpw
  intro a b ha hb hlt heq
  obtain ⟨ea, hea, hla⟩ := hal a ha
  obtain ⟨eb, heb, hlb⟩ := hal b hb
  rw [heq] at hea
  have heab : ea = eb := by
    have h2 := hea.symm.trans heb
    injection h2
  rw [heab] at hla
  omega

theorem agentAmount_single :
    ∀ (rows : List SalespersonAgentCommission),
      (rows.map (fun r => r.agentId)).Nodup → ∀ r ∈ rows,
      agentAmount rows r.agentId = r.commissionAmount := by
  intro rows
  induction rows with
  | nil => intro _ r hr; cases hr
  | cons h t ih =>
    intro hn r hr
    simp only [List.map_cons, List.Nodup, List.pairwise_cons] at hn
    rcases List.mem_cons.mp hr with rfl | hrt
    · rw [agentAmount_cons, if_pos (beq_self_eq_true _)]
      have hnil : t.filter (fun q => q.agentId == r.agentId) = [] := by
        rw [List.filter_eq_nil_iff]
        intro q hq
        simp only [beq_iff_eq]
        exact fun hqe => (hn.1 q.agentId (List.mem_map_of_mem _ hq)) hqe.symm
      have hzero : agentAmount t r.agentId = 0 := by
        unfold agentAmount
        rw [hnil]
        rfl
      rw [hzero, add_zero]
    · have hne : (h.agentId == r.agentId) = false := by
        simp only [beq_eq_false_iff_ne, ne_eq]
        exact hn.1 r.agentId (List.mem_map_of_mem _ hrt)
      rw [agentAmount_cons, if_neg (by simp [hne]), zero_add]
      exact ih hn.2 r hrt

/-- C2: in the commission cascade for a sale of amount `M`, the ancestor `A`
reached at walk level `curLevel` is paid at rate `A.parentCommissionRate`
verbatim when `curLevel = A.level + 1` and at
`A.parentCommissionRate / 2^(curLevel - A.level - 1)` otherwise; the
commission amount recorded is `M × rate`, and when that amount is below
0.01 the cascade stops at once, processing no further ancestor. -/
theorem c2_cascade_rate_and_cutoff (saleId curId pid : Nat) (M : ℚ)
    (fuel : Nat) (curLevel : Int) (sps : List Salesperson)
    (rows : List SalespersonAgentCommission) (A : Salesperson)
    (hA : findSp sps pid = some A) :
    (M * specRate A curLevel < 1 / 100 →
      cascadeLoop saleId M (fuel + 1) curId (some pid) curLevel sps rows =
        .ok (sps, rows)) ∧
    (¬ M * specRate A curLevel < 1 / 100 →
      cascadeLoop saleId M (fuel + 1) curId (some pid) curLevel sps rows =
        cascadeLoop saleId M fuel A.id A.parentId A.level
          (sps.map (fun s => if s.id == A.id then
            { s with totalCommission :=
                s.totalCommission + M * specRate A curLevel }
            else s))
          (rows ++ [{ saleId := saleId, salespersonId := curId,
                      agentId := A.id, agentLevel := A.level,
                      originalAmount := M,
                      commissionRate := specRate A curLevel,
                      commissionAmount := M * specRate A curLevel,
                      status := "pending" }])) := by
  have hcode : (if curLevel - 1 = A.level then A.parentCommissionRate
      else A.parentCommissionRate / (2 : ℚ) ^ (curLevel - A.level - 1)) =
      specRate A curLevel := by
    unfold specRate
    by_cases h : curLevel - 1 = A.level
    · rw [if_pos h, if_pos (by omega)]
    · rw [if_neg h, if_neg (fun hc => h (by omega))]
  constructor
  · intro hlt
    simp only [cascadeLoop, hA]
    rw [hcode, if_pos hlt]
  · intro hge
    simp only [cascadeLoop, hA]
    rw [hcode, if_neg hge]

/-- C2 witness: a concrete two-node chain exercising both the direct-rate
payout leg and the below-0.01 cutoff leg. -/
theorem c2_cascade_rate_and_cutoff_witness :
    (cascadeLoop 7 (1 / 20) 5 3 (some 2) 2
        [{ id := 2, level := 1, parentCommissionRate := 1 / 10 }] [] =
      .ok ([{ id := 2, level := 1, parentCommissionRate := 1 / 10 }], [])) ∧
    (cascadeLoop 7 100 5 3 (some 2) 2
        [{ id := 2, level := 1, parentCommissionRate := 1 / 10 }] [] =
      cascadeLoop 7 100 4 2 none 1
        [{ id := 2, level := 1, parentCommissionRate := 1 / 10,
           totalCommission := 0 + 100 * specRate
             { id := 2, level := 1, parentCommissionRate := 1 / 10 } 2 }]
        [{ saleId := 7, salespersonId := 3, agentId := 2, agentLevel := 1,
           originalAmount := 100,
           commissionRate := specRate
             { id := 2, level := 1, parentCommissionRate := 1 / 10 } 2,
           commissionAmount := 100 * specRate
             { id := 2, level := 1, parentCommissionRate := 1 / 10 } 2,
           status := "pending" }]) := by
  constructor
  · exact (c2_cascade_rate_and_cutoff 7 3 2 (1 / 20) 4 2
      [{ id := 2, level := 1, parentCommissionRate := 1 / 10 }] []
      { id := 2, level := 1, parentCommissionRate := 1 / 10 }
      rfl).1 (by norm_num [specRate])
  · exact (c2_cascade_rate_and_cutoff 7 3 2 100 4 2
      [{ id := 2, level := 1, parentCommissionRate := 1 / 10 }] []
      { id := 2, level := 1, parentCommissionRate := 1 / 10 }
      rfl).2 (by norm_num [specRate])

/-- C3: the commission cascade for one sale is a successful no-op when the
selling salesperson has no parent; otherwise a successful run appends at
most `MaxAgentLevel` (5) commission rows, all with status pending, for
pairwise-distinct ancestors, and each such ancestor's `totalCommission`
grows by exactly its single row's amount — no ancestor is double-credited.
The forest invariant (a stored parent has a strictly smaller level) is
assumed of the table. -/
theorem c3_cascade_rows_and_credits (db : DB) (sale : SalespersonSale)
    (hlvl : parentLevelLtB db.salespersons = true) :
    (∀ s, findSp db.salespersons sale.salespersonId = some s →
      s.parentId = none → ProcessAgentCommission db sale = .ok db) ∧
    (∀ db', ProcessAgentCommission db sale = .ok db' →
      ∃ new, db'.agentCommissions = db.agentCommissions ++ new ∧
        new.length ≤ MaxAgentLevel.toNat ∧
        (new.map (fun r => r.agentId)).Nodup ∧
        (∀ r ∈ new, r.status = "pending" ∧ r.saleId = sale.id ∧
          ∃ e, findSp db.salespersons r.agentId = some e ∧
            findSp db'.salespersons r.agentId = some { e with
              totalCommission := e.totalCommission + r.commissionAmount })) := by
  have hinv : parentLevelLtP db.salespersons := parentLevelLtP_of_B _ hlvl
  constructor
  · intro s hs hnone
    simp only [ProcessAgentCommission, hs, hnone]
  · intro db' hrun
    simp only [ProcessAgentCommission] at hrun
    cases hs : findSp db.salespersons sale.salespersonId with
    | none => simp only [hs] at hrun; exact absurd hrun (by simp)
    | some s =>
      simp only [hs] at hrun
      cases hpid : s.parentId with
      | none =>
        simp only [hpid, Except.ok.injEq] at hrun
        subst hrun
        refine ⟨[], by simp, by simp, by simp, by simp⟩
      | some pid =>
        simp only [hpid] at hrun
        cases hc : cascadeLoop sale.id sale.saleAmount MaxAgentLevel.toNat
            sale.salespersonId (some pid) s.level db.salespersons [] with
        | error e => simp only [hc] at hrun; exact absurd hrun (by simp)
        | ok pr =>
          obtain ⟨sps2, rows2⟩ := pr
          simp only [hc, Except.ok.injEq] at hrun
          subst hrun
          have hcur : ∀ pid', (some pid : Option Nat) = some pid' →
              ∀ p, findSp db.salespersons pid' = some p → p.level < s.level := by
            intro pid' hpe p hp
            injection hpe with hpe
            subst hpe
            exact hinv s (findSp_mem hs) pid hpid p hp
          obtain ⟨new, hrows, hlen, hprops, hpw, hfind⟩ :=
            cascadeLoop_ok_spec sale.id sale.saleAmount MaxAgentLevel.toNat
              sale.salespersonId (some pid) s.level db.salespersons sps2 []
              rows2 hinv hcur hc
          have hnodup : (new.map (fun r => r.agentId)).Nodup :=
            cascade_agentIds_nodup db.salespersons new hpw
              (fun r hr => (hprops r hr).2.2.2.2)
          refine ⟨new, by rw [hrows]; simp, by simpa using hlen, hnodup, ?_⟩
          intro r hr
          obtain ⟨h1, h2, _, _, e, he, _⟩ := hprops r hr
          refine ⟨h1, h2, e, he, ?_⟩
          rw [hfind r.agentId, he]
          simp only [Option.map_some']
          rw [agentAmount_single new hnodup r hr]

/-- C3 witness: the no-parent no-op leg at a concrete one-row table; the
forest-invariant hypothesis is discharged by evaluation. -/
theorem c3_cascade_rows_and_credits_witness :
    ProcessAgentCommission
      { salespersons := [{ id := 1, level := 0 }] }
      { id := 7, salespersonId := 1, saleAmount := 100 } =
    .ok { salespersons := [{ id := 1, level := 0 }] } :=
  (c3_cascade_rows_and_credits
    { salespersons := [{ id := 1, level := 0 }] }
    { id := 7, salespersonId := 1, saleAmount := 100 }
    (by decide)).1 { id := 1, level := 0 } rfl rfl

/-- C4: activating an unused key of a matching, active software at time
`now` succeeds and sets status=used, usedAt=activatedAt=now, expiredAt
exactly `now` plus the hours recorded on the key at mint time, and stores
the supplied device info and activator id; a second activate call with
identical inputs then fails with InvalidState and leaves the stored key —
in particular its usedAt and expiredAt — unchanged. -/
theorem c4_activate_then_reactivate (db : DB)
    (code keyCode deviceInfo : String) (softwareId activatorId : Nat)
    (now : Int) (k : Key) (sw : Software)
    (hnodup : keyIdsNodupB db.keys = true)
    (hcode : code ≠ "") (hkc : keyCode ≠ "") (hsid : softwareId ≠ 0)
    (hk : findKeyByCodes db.keys code keyCode = some k)
    (hstatus : k.status = "unused") (hksw : k.softwareId = softwareId)
    (hsw : findSoftware db.softwares softwareId = some sw)
    (hswa : sw.status = "active") (hswb : sw.isActive = true) :
    ∃ db' k',
      ActivateKey db code keyCode softwareId deviceInfo activatorId now =
        (db', .ok k') ∧
      k'.status = "used" ∧ k'.usedAt = some now ∧
      k'.activatedAt = some now ∧
      k'.expiredAt = some (now + k.hours * nsPerHour) ∧
      k'.deviceInfo = deviceInfo ∧ k'.userId = some activatorId ∧
      findKeyByCodes db'.keys code keyCode = some k' ∧
      ActivateKey db' code keyCode softwareId deviceInfo activatorId now =
        (db', .error .invalidState) := by
  have hn : (db.keys.map Key.id).Nodup := of_decide_eq_true hnodup
  have hk' : db.keys.find? (fun x => x.code == code && x.keyCode == keyCode) =
      some k := hk
  have hpk := List.find?_some hk'
  set k2 : Key :=
    { k with
      status := "used", usedAt := some now, activatedAt := some now,
      expiredAt := some (now + k.hours * nsPerHour),
      deviceInfo := deviceInfo, userId := some activatorId } with hk2def
  have hpk2 : (fun x : Key => x.code == code && x.keyCode == keyCode) k2 = true := by
    rw [hk2def]
    exact hpk
  have hfind2 : findKeyByCodes
      (db.keys.map (fun x => if x.id == k.id then k2 else x)) code keyCode =
      some k2 :=
    find?_map_update Key.id _ db.keys hn k k2 hk' (by rw [hk2def]) hpk2
  refine ⟨{ db with keys := db.keys.map (fun x => if x.id == k.id then k2 else x) },
    k2, ?_, by simp [hk2def], by simp [hk2def], by simp [hk2def],
    by simp [hk2def], by simp [hk2def], by simp [hk2def], hfind2, ?_⟩
  · simp only [ActivateKey, hk, hsw]
    rw [if_neg (by simp [hcode, hkc]), if_neg hsid,
      if_neg (by simp [hstatus]), if_neg (by simp [hksw]),
      if_neg (by simp [hswa, hswb])]
  · simp only [ActivateKey, hfind2]
    rw [if_neg (by simp [hcode, hkc]), if_neg hsid,
      if_pos (by simp [hk2def])]

/-- C4 witness: one concrete key activated at time 0 with a 720-hour type,
then reactivated. -/
theorem c4_activate_then_reactivate_witness :
    ∃ db' k',
      ActivateKey
        { keys := [{ id := 5, code := "C", keyCode := "K", hours := 720,
                     softwareId := 1, status := "unused" }],
          softwares := [{ id := 1, name := "sw" }] }
        "C" "K" 1 "dev" 9 0 = (db', .ok k') ∧
      k'.status = "used" ∧ k'.usedAt = some 0 ∧ k'.activatedAt = some 0 ∧
      k'.expiredAt = some (0 + 720 * nsPerHour) ∧
      k'.deviceInfo = "dev" ∧ k'.userId = some 9 ∧
      findKeyByCodes db'.keys "C" "K" = some k' ∧
      ActivateKey db' "C" "K" 1 "dev" 9 0 = (db', .error .invalidState) :=
  c4_activate_then_reactivate
    { keys := [{ id := 5, code := "C", keyCode := "K", hours := 720,
                 softwareId := 1, status := "unused" }],
      softwares := [{ id := 1, name := "sw" }] }
    "C" "K" "dev" 1 9 0
    { id := 5, code := "C", keyCode := "K", hours := 720,
      softwareId := 1, status := "unused" }
    { id := 1, name := "sw" }
    (by decide) (by decide) (by decide) (by decide) rfl rfl rfl rfl rfl rfl

theorem keyIdsNodup_inj {ks : List Key} (hn : (ks.map Key.id).Nodup)
    {a b : Key} (ha : a ∈ ks) (hb : b ∈ ks) (hab : a.id = b.id) : a = b :=
  List.inj_on_of_nodup_map hn ha hb hab

theorem findKeyById_int {ks : List Key} {kid : Int} {k : Key}
    (hk : findKeyById ks kid = some k) : (k.id : Int) = kid := by
  have hk2 : ks.find? (fun x => ((x.id : Int) == kid)) = some k := hk
  have := List.find?_some hk2
  simpa using this

/-- Any `ActivateKey` call leaves a stored void key untouched: the error
branches do not write, and the success branch only rewrites the activated
key's row, which cannot be the void key since activation requires status
unused. -/
theorem activateKey_preserves_void (db : DB) (code keyCode dev : String)
    (swid act : Nat) (now kid : Int) (k : Key)
    (hnodup : keyIdsNodupB db.keys = true)
    (hk : findKeyById db.keys kid = some k) (hv : k.status = "void") :
    findKeyById (ActivateKey db code keyCode swid dev act now).1.keys kid =
      some k := by
  have hn : (db.keys.map Key.id).Nodup := of_decide_eq_true hnodup
  have hkid : (k.id : Int) = kid := findKeyById_int hk
  have hkmem : k ∈ db.keys := List.mem_of_find?_eq_some hk
  unfold ActivateKey
  split
  · exact hk
  · split
    · exact hk
    · split
      · exact hk
      · rename_i k2 heq2
        split
        · exact hk
        · rename_i hstat2
          split
          · exact hk
          · split
            · exact hk
            · rename_i sw2 heqsw
              split
              · exact hk
              · have hk2mem : k2 ∈ db.keys := List.mem_of_find?_eq_some heq2
                have hk2status : k2.status = "unused" := by
                  by_contra hcontra
                  exact hstat2 hcontra
                have hne : ∀ a : Key, ((a.id : Int) == kid) = true →
                    (a.id == k2.id) = false := by
                  intro a hpa
                  simp only [beq_eq_false_iff_ne, ne_eq]
                  intro haid
                  have haidk : (a.id : Int) = kid := by simpa using hpa
                  have hk2k : k2.id = k.id := by omega
                  have := keyIdsNodup_inj hn hk2mem hkmem hk2k
                  rw [this, hv] at hk2status
                  exact absurd hk2status (by simp)
                show findKeyById (db.keys.map _) kid = some k
                unfold findKeyById
                rw [find?_map_fix _ _ ?hp ?hfix db.keys]
                · exact hk
                case hp =>
                  intro a
                  by_cases h : (a.id == k2.id) = true
                  · have haeq : a.id = k2.id := by simpa using h
                    rw [if_pos h]
                    show ((k2.id : Int) == kid) = ((a.id : Int) == kid)
                    rw [haeq]
                  · rw [if_neg h]
                case hfix =>
                  intro a hpa
                  rw [if_neg (by simp [hne a hpa])]

/-- Any `VoidKey` call leaves a stored void key untouched: voiding the key
itself fails (already void), and voiding another key rewrites only that
other row. -/
theorem voidKey_preserves_void (db : DB) (kid2 kid : Int) (k : Key)
    (hnodup : keyIdsNodupB db.keys = true)
    (hk : findKeyById db.keys kid = some k) (hv : k.status = "void") :
    findKeyById (VoidKey db kid2).1.keys kid = some k := by
  have hn : (db.keys.map Key.id).Nodup := of_decide_eq_true hnodup
  have hkid : (k.id : Int) = kid := findKeyById_int hk
  have hkmem : k ∈ db.keys := List.mem_of_find?_eq_some hk
  unfold VoidKey
  split
  · exact hk
  · split
    · exact hk
    · rename_i k2 heq2
      split
      · exact hk
      · rename_i hstat2
        have hk2mem : k2 ∈ db.keys := List.mem_of_find?_eq_some heq2
        have hne : ∀ a : Key, ((a.id : Int) == kid) = true →
            (a.id == k2.id) = false := by
          intro a hpa
          simp only [beq_eq_false_iff_ne, ne_eq]
          intro haid
          have haidk : (a.id : Int) = kid := by simpa using hpa
          have hk2k : k2.id = k.id := by omega
          have := keyIdsNodup_inj hn hk2mem hkmem hk2k
          rw [this, hv] at hstat2
          exact hstat2 rfl
        show findKeyById (db.keys.map _) kid = some k
        unfold findKeyById
        rw [find?_map_fix _ _ ?hp ?hfix db.keys]
        · exact hk
        case hp =>
          intro a
          by_cases h : (a.id == k2.id) = true
          · have haeq : a.id = k2.id := by simpa using h
            rw [if_pos h]
            show ((k2.id : Int) == kid) = ((a.id : Int) == kid)
            rw [haeq]
          · rw [if_neg h]
        case hfix =>
          intro a hpa
          rw [if_neg (by simp [hne a hpa])]

/-- C6: voiding a key fails exactly when its status is already void; in
every other state (including used) it sets status=void; and once a key is
void, no activate or void call — on any input — ever changes that key's
stored row again. -/
theorem c6_void_terminal (db : DB) (kid : Int) (k : Key)
    (hnodup : keyIdsNodupB db.keys = true)
    (hpos : 0 < kid)
    (hk : findKeyById db.keys kid = some k) :
    (k.status = "void" → VoidKey db kid = (db, .error .invalidState)) ∧
    (k.status ≠ "void" → ∃ db',
      VoidKey db kid = (db', .ok { k with status := "void" }) ∧
      findKeyById db'.keys kid = some { k with status := "void" }) ∧
    (k.status = "void" →
      (∀ code keyCode swid dev act now,
        findKeyById (ActivateKey db code keyCode swid dev act now).1.keys kid =
          some k) ∧
      (∀ kid2, findKeyById (VoidKey db kid2).1.keys kid = some k)) := by
  have hn : (db.keys.map Key.id).Nodup := of_decide_eq_true hnodup
  have hk' : db.keys.find? (fun x => ((x.id : Int) == kid)) = some k := hk
  have hpk := List.find?_some hk'
  refine ⟨?_, ?_, ?_⟩
  · intro hv
    simp only [VoidKey, hk]
    rw [if_neg (by omega), if_pos hv]
  · intro hv
    refine ⟨{ db with keys := db.keys.map (fun x => if x.id == k.id then
        { k with status := "void" } else x) }, ?_, ?_⟩
    · simp only [VoidKey, hk]
      rw [if_neg (by omega), if_neg hv]
    · exact find?_map_update Key.id _ db.keys hn k _ hk' rfl hpk
  · intro hv
    exact ⟨fun code keyCode swid dev act now =>
        activateKey_preserves_void db code keyCode dev swid act now kid k
          hnodup hk hv,
      fun kid2 => voidKey_preserves_void db kid2 kid k hnodup hk hv⟩

/-- C6 witness: a concrete two-key table with one void key; the void key is
rejected for re-voiding, a used key is voidable, and activating or voiding
the other key leaves the void key's row intact. -/
theorem c6_void_terminal_witness :
    (VoidKey
      { keys := [{ id := 1, code := "A", keyCode := "B", status := "void" },
                 { id := 2, code := "C", keyCode := "D", status := "used" }] }
      1 =
      ({ keys := [{ id := 1, code := "A", keyCode := "B", status := "void" },
                  { id := 2, code := "C", keyCode := "D", status := "used" }] },
       .error .invalidState)) ∧
    (∀ kid2, findKeyById (VoidKey
      { keys := [{ id := 1, code := "A", keyCode := "B", status := "void" },
                 { id := 2, code := "C", keyCode := "D", status := "used" }] }
      kid2).1.keys 1 =
      some { id := 1, code := "A", keyCode := "B", status := "void" }) := by
  have h := c6_void_terminal
    { keys := [{ id := 1, code := "A", keyCode := "B", status := "void" },
               { id := 2, code := "C", keyCode := "D", status := "used" }] }
    1 { id := 1, code := "A", keyCode := "B", status := "void" }
    (by decide) (by decide) rfl
  exact ⟨h.1 rfl, (h.2.2 rfl).2⟩

/-- C1: accepting an agent invitation fails with IntegrityViolation and no
hierarchy mutation whenever the inviter is the accepter themself or any
direct or indirect descendant of the accepter — the recursive descendant
traversal `isCircularReference` detects the relation at any depth. The
other acceptance preconditions (pending invitation, not expired, accepter
parentless, inviter below the level cap) are assumed so that the cycle
check is the deciding branch. -/
theorem c1_cycle_rejection (db : DB) (code : String) (sid : Nat) (now : Int)
    (inv : SalespersonAgentInvitation) (s p : Salesperson)
    (hcode : code ≠ "")
    (hinv : findPendingInv db.invitations code = some inv)
    (hexp : ¬ inv.expiredAt < now)
    (hs : findSp db.salespersons sid = some s)
    (hp : findSp db.salespersons inv.inviterId = some p)
    (hlvl : p.level < MaxAgentLevel)
    (hpar : s.parentId = none)
    (hdesc : inv.inviterId = sid ∨ ∃ n, n ≤ db.salespersons.length ∧
      DescendantAtDepth db.salespersons sid inv.inviterId n) :
    AcceptAgentInvitation db code sid now =
      AcceptOutcome.err .integrityViolation db := by
  have hcyc : isCircularReference db.salespersons db.salespersons.length
      inv.inviterId sid = true := by
    rcases hdesc with heq | ⟨n, hn, hd⟩
    · rw [heq]
      exact isCircularReference_self _ _ _
    · exact isCircularReference_of_descendant _ hd hn
  simp only [AcceptAgentInvitation, hinv, hs, hp, hcyc]
  rw [if_neg hcode, if_neg hexp, if_neg (by omega), if_neg (by simp [hpar]),
    if_pos trivial]

/-- C1 witness: the chain A(id 1) ← B(id 2) ← C(id 3); C invites A, and A's
acceptance is rejected as a circular reference two levels deep. -/
theorem c1_cycle_rejection_witness :
    AcceptAgentInvitation
      { salespersons :=
          [{ id := 1, level := 0 },
           { id := 2, level := 1, parentId := some 1 },
           { id := 3, level := 2, parentId := some 2 }],
        invitations := [{ id := 10, inviterId := 3, inviteCode := "C1",
                          status := "pending", expiredAt := 100 }] }
      "C1" 1 0 =
    AcceptOutcome.err .integrityViolation
      { salespersons :=
          [{ id := 1, level := 0 },
           { id := 2, level := 1, parentId := some 1 },
           { id := 3, level := 2, parentId := some 2 }],
        invitations := [{ id := 10, inviterId := 3, inviteCode := "C1",
                          status := "pending", expiredAt := 100 }] } :=
  c1_cycle_rejection _ "C1" 1 0
    { id := 10, inviterId := 3, inviteCode := "C1",
      status := "pending", expiredAt := 100 }
    { id := 1, level := 0 }
    { id := 3, level := 2, parentId := some 2 }
    (by decide) rfl (by decide) rfl rfl (by decide) rfl
    (Or.inr ⟨2, by decide,
      DescendantAtDepth.step 1 3 1 { id := 2, level := 1, parentId := some 1 }
        (List.Mem.tail _ (List.Mem.head _)) rfl
        (DescendantAtDepth.direct 2 { id := 3, level := 2, parentId := some 2 }
          (List.Mem.tail _ (List.Mem.tail _ (List.Mem.head _))) rfl)⟩)

/-- C10: the cycle check returns true whenever the potential parent equals
the accepter (before any descendant traversal), and consequently an
invitation whose inviter is the accepter themself can never be accepted:
no salesperson can become their own parent. -/
theorem c10_self_invitation_never_accepted :
    (∀ (sps : List Salesperson) (fuel x : Nat),
      isCircularReference sps fuel x x = true) ∧
    (∀ (db : DB) (code : String) (sid : Nat) (now : Int)
      (inv : SalespersonAgentInvitation) (db' : DB),
      findPendingInv db.invitations code = some inv → inv.inviterId = sid →
      AcceptAgentInvitation db code sid now ≠ AcceptOutcome.ok db') := by
  refine ⟨isCircularReference_self, ?_⟩
  intro db code sid now inv db' hinv hself hok
  rw [← hself] at hok
  simp only [AcceptAgentInvitation, hinv, isCircularReference_self] at hok
  split at hok
  · simp at hok
  · split at hok
    · simp at hok
    · split at hok
      · simp at hok
      · split at hok
        · simp at hok
        · split at hok
          · simp at hok
          · split at hok
            · simp at hok
            · simp at hok

/-- C10 witness: a single salesperson inviting themself is rejected. -/
theorem c10_self_invitation_never_accepted_witness :
    isCircularReference [] 0 5 5 = true ∧
    AcceptAgentInvitation
      { salespersons := [{ id := 1, level := 0 }],
        invitations := [{ id := 10, inviterId := 1, inviteCode := "Z",
                          status := "pending", expiredAt := 100 }] }
      "Z" 1 0 ≠
    AcceptOutcome.ok
      { salespersons := [{ id := 1, level := 0 }],
        invitations := [{ id := 10, inviterId := 1, inviteCode := "Z",
                          status := "pending", expiredAt := 100 }] } :=
  ⟨c10_self_invitation_never_accepted.1 [] 0 5,
    c10_self_invitation_never_accepted.2 _ "Z" 1 0
      { id := 10, inviterId := 1, inviteCode := "Z",
        status := "pending", expiredAt := 100 }
      _ rfl rfl⟩

theorem findSp_map_ccount (sps : List Salesperson) (aid x : Nat) :
    findSp (sps.map (fun a => if a.id == aid then
      { a with childrenCount := a.childrenCount + 1 } else a)) x =
    (findSp sps x).map (fun a => if a.id == aid then
      { a with childrenCount := a.childrenCount + 1 } else a) := by
  unfold findSp
  exact find?_map_congr _ _ (fun a => by split <;> rfl) sps

theorem findSp_map_replace (sps : List Salesperson) (k kNew : Salesperson)
    (hid : kNew.id = k.id) (x : Nat) :
    findSp (sps.map (fun a => if a.id == k.id then kNew else a)) x =
    (findSp sps x).map (fun a => if a.id == k.id then kNew else a) := by
  unfold findSp
  refine find?_map_congr _ _ (fun a => ?_) sps
  split
  · rename_i h
    show (kNew.id == x) = (a.id == x)
    rw [hid, show a.id = k.id from by simpa using h]
  · rfl

/-- C5: under the acceptance preconditions, an inviter already at
`MaxAgentLevel` is rejected with IntegrityViolation, and otherwise the
acceptance succeeds in one transaction: the accepter's parentId becomes the
inviter's id and its level becomes `inviter.level + 1`, the inviter's
childrenCount is incremented by one, and the invitation is marked accepted
with the acceptance timestamp and the resolved invitee id; the key table is
untouched. -/
theorem c5_accept_success_updates (db : DB) (code : String) (sid : Nat)
    (now : Int) (inv : SalespersonAgentInvitation) (s p : Salesperson)
    (hnodup : spIdsNodupB db.salespersons = true)
    (hinodup : invIdsNodupB db.invitations = true)
    (hcode : code ≠ "")
    (hinv : findPendingInv db.invitations code = some inv)
    (hexp : ¬ inv.expiredAt < now)
    (hs : findSp db.salespersons sid = some s)
    (hp : findSp db.salespersons inv.inviterId = some p)
    (hpar : s.parentId = none)
    (hcyc : isCircularReference db.salespersons db.salespersons.length
      inv.inviterId sid = false) :
    (MaxAgentLevel ≤ p.level →
      AcceptAgentInvitation db code sid now =
        AcceptOutcome.err .integrityViolation db) ∧
    (p.level < MaxAgentLevel → ∃ db',
      AcceptAgentInvitation db code sid now = AcceptOutcome.ok db' ∧
      findSp db'.salespersons sid =
        some { s with parentId := some inv.inviterId, level := p.level + 1 } ∧
      findSp db'.salespersons inv.inviterId =
        some { p with childrenCount := p.childrenCount + 1 } ∧
      db'.invitations.find? (fun i => i.id == inv.id) =
        some { inv with
               status := "accepted", inviteeId := some s.id,
               acceptedAt := some now } ∧
      db'.keys = db.keys) := by
  have hsid : s.id = sid := findSp_id hs
  have hpid : p.id = inv.inviterId := findSp_id hp
  have hn : (db.salespersons.map Salesperson.id).Nodup := of_decide_eq_true hnodup
  have hne : inv.inviterId ≠ sid := by
    intro h
    rw [h, isCircularReference_self] at hcyc
    cases hcyc
  constructor
  · intro hfull
    simp only [AcceptAgentInvitation, hinv, hs, hp]
    rw [if_neg hcode, if_neg hexp, if_pos hfull]
  · intro hlt
    refine ⟨{ db with
      salespersons := (db.salespersons.map (fun a =>
        if a.id == s.id then
          { s with parentId := some inv.inviterId, level := p.level + 1 }
        else a)).map (fun a =>
          if a.id == p.id then
            { a with childrenCount := a.childrenCount + 1 }
          else a),
      invitations := db.invitations.map (fun i =>
        if i.id == inv.id then
          { inv with
            status := "accepted", inviteeId := some s.id,
            acceptedAt := some now }
        else i) }, ?_, ?_, ?_, ?_, ?_⟩
    · simp only [AcceptAgentInvitation, hinv, hs, hp, hcyc]
      rw [if_neg hcode, if_neg hexp,
        if_neg (show ¬ MaxAgentLevel ≤ p.level by omega),
        if_neg (by simp [hpar]),
        if_neg (show ¬ MaxAgentLevel < p.level + 1 by omega),
        if_neg (show ¬ false = true by simp)]
    · rw [findSp_map_ccount, findSp_map_replace db.salespersons s
        { s with parentId := some inv.inviterId, level := p.level + 1 } rfl sid,
        hs]
      simp [hsid, hpid, Ne.symm hne]
    · rw [findSp_map_ccount, findSp_map_replace db.salespersons s
        { s with parentId := some inv.inviterId, level := p.level + 1 } rfl
        inv.inviterId, hp]
      simp [hsid, hpid, hne]
    · have hinvmem : inv ∈ db.invitations := List.mem_of_find?_eq_some hinv
      have hin : (db.invitations.map SalespersonAgentInvitation.id).Nodup :=
        of_decide_eq_true hinodup
      have hfid : db.invitations.find? (fun i => i.id == inv.id) = some inv :=
        find?_key_of_mem_nodup SalespersonAgentInvitation.id db.invitations
          hin inv hinvmem
      exact find?_map_update SalespersonAgentInvitation.id _ db.invitations
        hin inv _ hfid rfl (by simp)
    · rfl

/-- C5 witness: salesperson 1 (level 0) invites salesperson 4; acceptance
re-parents 4 under 1 at level 1, increments 1's childrenCount, and marks the
invitation accepted at time 50 with invitee 4. -/
theorem c5_accept_success_updates_witness :
    ∃ db', AcceptAgentInvitation
        { salespersons := [{ id := 1, level := 0 }, { id := 4, level := 0 }],
          invitations := [{ id := 12, inviterId := 1, inviteCode := "C2",
                            status := "pending", expiredAt := 100 }] }
        "C2" 4 50 = AcceptOutcome.ok db' ∧
      findSp db'.salespersons 4 =
        some { id := 4, level := 0 + 1, parentId := some 1 } ∧
      findSp db'.salespersons 1 =
        some { id := 1, level := 0, childrenCount := 0 + 1 } ∧
      db'.invitations.find? (fun i => i.id == 12) =
        some { id := 12, inviterId := 1, inviteCode := "C2",
               status := "accepted", inviteeId := some 4,
               acceptedAt := some 50, expiredAt := 100 } ∧
      db'.keys = [] :=
  (c5_accept_success_updates
    { salespersons := [{ id := 1, level := 0 }, { id := 4, level := 0 }],
      invitations := [{ id := 12, inviterId := 1, inviteCode := "C2",
                        status := "pending", expiredAt := 100 }] }
    "C2" 4 50
    { id := 12, inviterId := 1, inviteCode := "C2",
      status := "pending", expiredAt := 100 }
    { id := 4, level := 0 } { id := 1, level := 0 }
    (by decide) (by decide) (by decide) rfl (by decide) rfl rfl rfl
    (by decide)).2 (by decide)

theorem batchFinalize_snd (db : DB) (req : BatchCreateRequest)
    (ct : String) (kt : KeyType) (sw : Software) (g1 g2 : Nat → String) :
    (batchFinalize db req ct kt sw g1 g2).2 =
      .ok (builtKeys req ct kt sw g1 g2) := by
  unfold batchFinalize
  split
  · split <;> rfl
  · rfl

theorem builtKeys_length (req : BatchCreateRequest) (ct : String)
    (kt : KeyType) (sw : Software) (g1 g2 : Nat → String) :
    (builtKeys req ct kt sw g1 g2).length = req.count.toNat := by
  unfold builtKeys
  simp

theorem builtKeys_fields (req : BatchCreateRequest) (ct : String)
    (kt : KeyType) (sw : Software) (g1 g2 : Nat → String) :
    ∀ k ∈ builtKeys req ct kt sw g1 g2, k.status = "unused" ∧
      k.typeName = kt.name ∧ k.hours = kt.hours ∧ k.price = kt.price := by
  intro k hk
  rcases List.mem_map.mp hk with ⟨i, _, rfl⟩
  exact ⟨rfl, rfl, rfl, rfl⟩

/-- C7: bulk key mint rejects any count outside [1,1000]; a successful mint
implies the key type was found and active, the software was found and
active, and a software-to-key-type binding row exists, and the `count`
generated keys all start unused and carry the key type's name, hours and
price as recorded at mint time. -/
theorem c7_batch_mint (db : DB) (req : BatchCreateRequest)
    (genCode genKeyCode : Nat → String) :
    (req.count < 1 ∨ req.count > 1000 →
      BatchCreateKeys db req genCode genKeyCode =
        (db, .error .validationError)) ∧
    (∀ db' ks, BatchCreateKeys db req genCode genKeyCode = (db', .ok ks) →
      1 ≤ req.count ∧ req.count ≤ 1000 ∧
      ∃ kt sw, findKeyType db.keyTypes req.typeId = some kt ∧
        kt.status = "active" ∧ kt.isActive = true ∧
        findSoftware db.softwares req.softwareId = some sw ∧
        sw.status = "active" ∧ sw.isActive = true ∧
        (db.softwareKeyTypes.find? (fun b =>
          b.softwareId == req.softwareId &&
          b.keyTypeId == req.typeId)).isSome = true ∧
        ks.length = req.count.toNat ∧
        ∀ k ∈ ks, k.status = "unused" ∧ k.typeName = kt.name ∧
          k.hours = kt.hours ∧ k.price = kt.price) := by
  constructor
  · intro h
    unfold BatchCreateKeys
    rw [if_pos (by omega)]
  · intro db' ks hrun
    unfold BatchCreateKeys at hrun
    split at hrun
    · exact absurd hrun (by simp)
    · rename_i hcount
      split at hrun
      · exact absurd hrun (by simp)
      · split at hrun
        · exact absurd hrun (by simp)
        · split at hrun
          · exact absurd hrun (by simp)
          · rename_i kt hkt
            split at hrun
            · exact absurd hrun (by simp)
            · rename_i hkta
              split at hrun
              · exact absurd hrun (by simp)
              · rename_i sw hsw
                split at hrun
                · exact absurd hrun (by simp)
                · rename_i hswa
                  split at hrun
                  · exact absurd hrun (by simp)
                  · rename_i b hbind
                    split at hrun
                    · exact absurd hrun (by simp)
                    · rw [not_or] at hkta hswa
                      have hkt1 : kt.status = "active" := not_not.mp hkta.1
                      have hkt2 : kt.isActive = true := by simpa using hkta.2
                      have hsw1 : sw.status = "active" := not_not.mp hswa.1
                      have hsw2 : sw.isActive = true := by simpa using hswa.2
                      have hsnd := congrArg Prod.snd hrun
                      rw [batchFinalize_snd] at hsnd
                      have hks : ks = builtKeys req (resolvedCreatorType req)
                          kt sw genCode genKeyCode := by
                        have := hsnd.symm
                        simpa using this
                      refine ⟨by omega, by omega, kt, sw, hkt, hkt1, hkt2,
                        hsw, hsw1, hsw2, by rw [hbind]; rfl, ?_, ?_⟩
                      · rw [hks, builtKeys_length]
                      · rw [hks]
                        exact builtKeys_fields req _ kt sw genCode genKeyCode

/-- C7 witness: a count of zero is rejected, and a successful admin mint of
one key inherits the key type's name, hours and price with status unused. -/
theorem c7_batch_mint_witness :
    (BatchCreateKeys
      { keyTypes := [{ id := 2, name := "month", hours := 720, price := 10 }],
        softwares := [{ id := 1, name := "sw" }],
        softwareKeyTypes := [{ softwareId := 1, keyTypeId := 2 }] }
      { typeId := 2, softwareId := 1, count := 0, creatorId := 1 }
      (fun _ => "K") (fun _ => "A") =
      ({ keyTypes := [{ id := 2, name := "month", hours := 720, price := 10 }],
         softwares := [{ id := 1, name := "sw" }],
         softwareKeyTypes := [{ softwareId := 1, keyTypeId := 2 }] },
       .error .validationError)) ∧
    (∀ db' ks, BatchCreateKeys
      { keyTypes := [{ id := 2, name := "month", hours := 720, price := 10 }],
        softwares := [{ id := 1, name := "sw" }],
        softwareKeyTypes := [{ softwareId := 1, keyTypeId := 2 }] }
      { typeId := 2, softwareId := 1, count := 1, creatorId := 1 }
      (fun _ => "K") (fun _ => "A") = (db', .ok ks) →
      ∀ k ∈ ks, k.status = "unused" ∧ k.typeName = "month" ∧
        k.hours = 720 ∧ k.price = 10) := by
  constructor
  · exact (c7_batch_mint _ _ _ _).1 (by decide)
  · intro db' ks hrun k hk
    obtain ⟨_, _, kt, sw, hkt, _, _, _, _, _, _, _, hall⟩ :=
      (c7_batch_mint _ _ _ _).2 db' ks hrun
    obtain ⟨h1, h2, h3, h4⟩ := hall k hk
    have hktv : ({ id := 2, name := "month", hours := 720, price := 10 } : KeyType) = kt := by
      simpa [findKeyType, List.find?] using hkt
    rw [← hktv] at h2 h3 h4
    exact ⟨h1, h2, h3, h4⟩

/-- C8 (documenting a code bug): with only a phone supplied, the duplicate
query that `CreateAgentInvitation` builds degenerates — GORM joins the
chained conditions as `status = 'pending' OR phone = ?` — so the request is
rejected with a conflict although no pending invitation for the same
contact exists: the only stored invitation is a pending one for a
completely different email and phone, and the spec's own duplicate test
`pendingSameContact` matches no stored row. -/
theorem c8_duplicate_check_bug :
    (CreateAgentInvitation
      { salespersons := [{ id := 1, level := 0 }],
        invitations := [{ id := 11, inviterId := 1, inviteCode := "X",
                          email := "someone@example.com", phone := "111111",
                          status := "pending", expiredAt := 0 }] }
      1 "" "222222" "NEW" 0 =
      ({ salespersons := [{ id := 1, level := 0 }],
         invitations := [{ id := 11, inviterId := 1, inviteCode := "X",
                           email := "someone@example.com", phone := "111111",
                           status := "pending", expiredAt := 0 }] },
       .error .conflict)) ∧
    (∀ inv ∈ ({ salespersons := [{ id := 1, level := 0 }],
                invitations := [{ id := 11, inviterId := 1, inviteCode := "X",
                                  email := "someone@example.com",
                                  phone := "111111", status := "pending",
                                  expiredAt := 0 }] } : DB).invitations,
      pendingSameContact "" "222222" inv = false) := by
  constructor
  · rfl
  · intro inv hinv
    rcases List.mem_cons.mp hinv with rfl | h
    · rfl
    · cases h

/-- C9: `RecordFailedLogin` increments the username's consecutive-failure
count (starting a fresh record at count 1), and exactly when the new count
reaches `maxAttempts` it sets `lockUntil = now + lockDuration` and reports
locked with the lock duration in whole minutes, otherwise it reports
not-locked and leaves `lockUntil` untouched; `IsLocked` is a pure read that
reports locked exactly when `now < lockUntil` for a known username and
false for an unknown one. -/
theorem c9_login_limiter (l : LoginLimiter) (u : String) (now : Int) :
    (∀ a, findAttempt l u = some a →
      (l.maxAttempts ≤ a.count + 1 →
        RecordFailedLogin l u now =
          (setAttempt l u
            { count := a.count + 1, lastTry := now,
              lockUntil := now + l.lockDuration },
            true, l.lockDuration / nsPerMinute) ∧
        findAttempt (RecordFailedLogin l u now).1 u =
          some { count := a.count + 1, lastTry := now,
                 lockUntil := now + l.lockDuration }) ∧
      (a.count + 1 < l.maxAttempts →
        RecordFailedLogin l u now =
          (setAttempt l u { a with count := a.count + 1, lastTry := now },
            false, 0) ∧
        findAttempt (RecordFailedLogin l u now).1 u =
          some { a with count := a.count + 1, lastTry := now })) ∧
    (findAttempt l u = none →
      RecordFailedLogin l u now =
        (if l.maxAttempts ≤ 1 then
          (setAttempt l u
            { count := 1, lastTry := now,
              lockUntil := now + l.lockDuration },
            true, l.lockDuration / nsPerMinute)
        else
          (setAttempt l u { count := 1, lastTry := now, lockUntil := 0 },
            false, 0))) ∧
    (∀ a, findAttempt l u = some a →
      (IsLocked l u now).1 = decide (now < a.lockUntil)) ∧
    (findAttempt l u = none → IsLocked l u now = (false, 0)) := by
  refine ⟨?_, ?_, ?_, ?_⟩
  · intro a ha
    constructor
    · intro hle
      have h1 : RecordFailedLogin l u now =
          (setAttempt l u
            { count := a.count + 1, lastTry := now,
              lockUntil := now + l.lockDuration },
            true, l.lockDuration / nsPerMinute) := by
        simp only [RecordFailedLogin, ha]
        rw [if_pos hle]
      exact ⟨h1, by rw [h1]; exact findAttempt_setAttempt l u _⟩
    · intro hlt
      have h1 : RecordFailedLogin l u now =
          (setAttempt l u { a with count := a.count + 1, lastTry := now },
            false, 0) := by
        simp only [RecordFailedLogin, ha]
        rw [if_neg (by omega)]
      exact ⟨h1, by rw [h1]; exact findAttempt_setAttempt l u _⟩
  · intro hnone
    simp only [RecordFailedLogin, hnone]
    split
    · rename_i h
      rw [if_pos (by omega)]
      norm_num
    · rename_i h
      rw [if_neg (by omega)]
      norm_num
  · intro a ha
    simp only [IsLocked, ha]
    split
    · rename_i h
      simp [h]
    · rename_i h
      simp [h]
  · intro hnone
    simp only [IsLocked, hnone]

/-- C9 witness: a user at four prior failures is locked by the fifth
failure for the configured fifteen minutes, and the lock reads back. -/
theorem c9_login_limiter_witness :
    (RecordFailedLogin
      { attempts := [("u", { count := 4, lastTry := 0, lockUntil := 0 })],
        maxAttempts := 5, lockDuration := 15 * nsPerMinute } "u" 1000 =
      (setAttempt
        { attempts := [("u", { count := 4, lastTry := 0, lockUntil := 0 })],
          maxAttempts := 5, lockDuration := 15 * nsPerMinute } "u"
        { count := 4 + 1, lastTry := 1000,
          lockUntil := 1000 + 15 * nsPerMinute }, true,
        (15 * nsPerMinute) / nsPerMinute)) ∧
    (IsLocked
      { attempts := [("u", { count := 4, lastTry := 0, lockUntil := 0 })],
        maxAttempts := 5, lockDuration := 15 * nsPerMinute } "u" 1000).1 =
      decide ((1000 : Int) < 0) := by
  have h := c9_login_limiter
    { attempts := [("u", { count := 4, lastTry := 0, lockUntil := 0 })],
      maxAttempts := 5, lockDuration := 15 * nsPerMinute } "u" 1000
  exact ⟨((h.1 { count := 4, lastTry := 0, lockUntil := 0 } rfl).1
    (by decide)).1, h.2.2.1 { count := 4, lastTry := 0, lockUntil := 0 } rfl⟩

end GoCreation
